import Mathlib

/-!
# `WKWebExtensionDataType.h`

A shallow embedding of the header
`macOS/DuckDuckGo/WebExtensions/Headers/WKWebExtensionDataType.h`:

    typedef NSString * WKWebExtensionDataType NS_TYPED_ENUM NS_SWIFT_NAME(WKWebExtension.DataType);

    WK_EXTERN WKWebExtensionDataType const WKWebExtensionDataTypeLocal NS_SWIFT_NONISOLATED;
    WK_EXTERN WKWebExtensionDataType const WKWebExtensionDataTypeSession NS_SWIFT_NONISOLATED;
    WK_EXTERN WKWebExtensionDataType const WKWebExtensionDataTypeSynchronized NS_SWIFT_NONISOLATED;

The header holds one type definition and three `extern` declarations of
`const` globals.  The initialisers of the three globals are not part of the
header; they are modelled from the specification's table and marked as such.

String objects are identified with their contents: object identity (pointer
comparison) is not part of the model.
-/

namespace WKWebExtension

/-! ## Data model -/

/-- An `NSString *`: `none` is `nil`, `some s` is a reference to a string object
with contents `s`. -/
abbrev NSStringPtr : Type := Option String

/-- The type `typedef NSString * WKWebExtensionDataType NS_TYPED_ENUM` (line 3).
A value of the type is an `NSString *` and nothing else; `NS_TYPED_ENUM` presents
it as a wrapper with the single field `rawValue`
(`WKWebExtension.DataType` in Swift). -/
structure WKWebExtensionDataType where
  /-- The underlying string pointer. -/
  rawValue : NSStringPtr
deriving DecidableEq, Repr

/-- The globals declared by the header, one constructor per `WK_EXTERN` line
(lines 5, 6, 7), named by the suffix that follows the type name
`WKWebExtensionDataType` in the declared identifier. -/
inductive Token where
  | Local
  | Session
  | Synchronized
deriving DecidableEq, Repr, Fintype

/-- The identifier each declaration introduces. -/
def Token.identifier : Token → String
  | .Local => "WKWebExtensionDataTypeLocal"
  | .Session => "WKWebExtensionDataTypeSession"
  | .Synchronized => "WKWebExtensionDataTypeSynchronized"

/-- Whether the declaration carries the `const` qualifier.  All three lines read
`WKWebExtensionDataType const <identifier>`. -/
def Token.isConst : Token → Bool
  | .Local => true
  | .Session => true
  | .Synchronized => true

/-- The declarations in header order. -/
def declaredTokens : List Token :=
  [Token.Local, Token.Session, Token.Synchronized]

/-- Modelled from the spec: the initialiser of `WKWebExtensionDataTypeLocal`, which
the header declares `extern` and does not define.  The spec's table gives the
string value "local". -/
def WKWebExtensionDataTypeLocal : WKWebExtensionDataType :=
  ⟨some "local"⟩

/-- Modelled from the spec: the initialiser of `WKWebExtensionDataTypeSession`,
which the header declares `extern` and does not define.  The spec's table gives
the string value "session". -/
def WKWebExtensionDataTypeSession : WKWebExtensionDataType :=
  ⟨some "session"⟩

/-- Modelled from the spec: the initialiser of `WKWebExtensionDataTypeSynchronized`,
which the header declares `extern` and does not define.  The spec's table gives
the string value "synchronized". -/
def WKWebExtensionDataTypeSynchronized : WKWebExtensionDataType :=
  ⟨some "synchronized"⟩

/-- The value a declared global holds. -/
def Token.value : Token → WKWebExtensionDataType
  | .Local => WKWebExtensionDataTypeLocal
  | .Session => WKWebExtensionDataTypeSession
  | .Synchronized => WKWebExtensionDataTypeSynchronized

/-- The characters of a string pointer's contents; `nil` has none. -/
def chars : NSStringPtr → List Char
  | none => []
  | some s => s.data

/-! ## Execution model

The header declares no function.  The only things a program can do with the
three globals are to read them and to attempt to assign to them; the `const`
qualifier decides what an assignment does. -/

/-- The storage of the three globals. -/
abbrev Store : Type := Token → WKWebExtensionDataType

/-- Static initialisation: every global holds its initialiser. -/
def staticInit : Store := Token.value

/-- An access to one of the declared globals. -/
inductive Access where
  /-- A reference to the global in an expression. -/
  | read (t : Token)
  /-- An assignment `<identifier> = v`. -/
  | assign (t : Token) (v : WKWebExtensionDataType)
deriving DecidableEq, Repr

/-- What an access produces. -/
inductive Outcome where
  /-- A read produced this value. -/
  | value (v : WKWebExtensionDataType)
  /-- An assignment was carried out. -/
  | stored
  /-- An assignment to a `const`-qualified global was refused. -/
  | rejected
deriving DecidableEq, Repr

/-- One access: a read returns the stored value and leaves the storage alone; an
assignment is refused when the global is `const`-qualified and otherwise
overwrites it. -/
def access (σ : Store) : Access → Store × Outcome
  | .read t => (σ, .value (σ t))
  | .assign t v =>
    if t.isConst then (σ, .rejected) else (Function.update σ t v, .stored)

/-- A sequence of accesses, left to right, threading the storage. -/
def run (σ : Store) : List Access → Store × List Outcome
  | [] => (σ, [])
  | a :: rest =>
    let r := access σ a
    let rs := run r.1 rest
    (rs.1, r.2 :: rs.2)

/-! ## Shared lemmas -/

theorem value_injective : Function.Injective Token.value := by
  decide

theorem rawValue_injective :
    Function.Injective WKWebExtensionDataType.rawValue := by
  intro a b h
  cases a
  cases b
  cases h
  rfl

theorem token_cases (t : Token) :
    t = Token.Local ∨ t = Token.Session ∨ t = Token.Synchronized := by
  cases t <;> simp

/-- Whatever three values the globals are initialised with, some value of the
type is none of them: the type has infinitely many values. -/
theorem exists_value_outside (val : Token → WKWebExtensionDataType) :
    ∃ v : WKWebExtensionDataType, ∀ t : Token, val t ≠ v := by
  by_contra hcon
  push_neg at hcon
  have hsurj : Function.Surjective val := hcon
  have hfin : Finite WKWebExtensionDataType := Finite.of_surjective val hsurj
  have hinj : Function.Injective
      (fun n : Nat => (⟨some (String.mk (List.replicate n 'a'))⟩ : WKWebExtensionDataType)) := by
    intro m n h
    have h1 : List.replicate m 'a' = List.replicate n 'a' :=
      congrArg String.data (Option.some.inj (congrArg WKWebExtensionDataType.rawValue h))
    simpa using congrArg List.length h1
  exact not_finite_iff_infinite.mpr (Infinite.of_injective _ hinj) hfin

theorem access_store (σ : Store) (a : Access) : (access σ a).1 = σ := by
  cases a with
  | read t => rfl
  | assign t v => cases t <;> rfl

theorem run_store (σ : Store) (l : List Access) : (run σ l).1 = σ := by
  induction l generalizing σ with
  | nil => rfl
  | cons a rest ih =>
    show (run (access σ a).1 rest).1 = σ
    rw [ih, access_store]

theorem run_outcomes (σ : Store) (l : List Access) :
    (run σ l).2 = l.map (fun a => (access σ a).2) := by
  induction l generalizing σ with
  | nil => rfl
  | cons a rest ih =>
    show (access σ a).2 :: (run (access σ a).1 rest).2 = _
    rw [ih, access_store]
    rfl

theorem run_reads (σ : Store) (t : Token) (n : Nat) :
    (run σ (List.replicate n (Access.read t))).2
      = List.replicate n (Outcome.value (σ t)) := by
  rw [run_outcomes, List.map_replicate]
  rfl

/-! ## The string values -/

/-- C1: each of the three declared tokens has exactly the string value of the
specification's table ("local", "session", "synchronized"); every character of
every value is a lowercase letter, so the values are all-lowercase and carry no
whitespace, and a differently-cased spelling is a different value. -/
theorem token_string_values :
    WKWebExtensionDataTypeLocal.rawValue = some "local"
    ∧ WKWebExtensionDataTypeSession.rawValue = some "session"
    ∧ WKWebExtensionDataTypeSynchronized.rawValue = some "synchronized"
    ∧ (∀ t : Token, (chars t.value.rawValue).all Char.isLower = true)
    ∧ (∀ t : Token, (chars t.value.rawValue).any Char.isWhitespace = false)
    ∧ (∀ t : Token, t.value.rawValue ≠ some "Local"
        ∧ t.value.rawValue ≠ some "Session"
        ∧ t.value.rawValue ≠ some "Synchronized"
        ∧ t.value.rawValue ≠ some " local"
        ∧ t.value.rawValue ≠ some "local ") := by
  refine ⟨rfl, rfl, rfl, ?_, ?_, ?_⟩ <;> decide

/-- C2: the string values of the three tokens are pairwise distinct, the map from
a token to its string value is injective, a map from strings back to tokens that
undoes serialisation exists, and every map from strings to tokens that is defined
on the tokens' strings and only returns a token whose string it was given
recovers each token from its string. -/
theorem token_strings_distinct_and_round_trip :
    (Token.Local.value.rawValue ≠ Token.Session.value.rawValue
      ∧ Token.Local.value.rawValue ≠ Token.Synchronized.value.rawValue
      ∧ Token.Session.value.rawValue ≠ Token.Synchronized.value.rawValue)
    ∧ Function.Injective (fun t : Token => t.value.rawValue)
    ∧ (∃ back : NSStringPtr → Option Token,
        ∀ t : Token, back t.value.rawValue = some t)
    ∧ (∀ back : NSStringPtr → Option Token,
        (∀ p t, back p = some t → t.value.rawValue = p) →
        (∀ t : Token, (back t.value.rawValue).isSome = true) →
        ∀ t : Token, back t.value.rawValue = some t) := by
  have hinj : Function.Injective (fun t : Token => t.value.rawValue) :=
    rawValue_injective.comp value_injective
  refine ⟨by decide, hinj, ?_, ?_⟩
  · refine ⟨fun p => declaredTokens.find? (fun t => decide (t.value.rawValue = p)), ?_⟩
    decide
  · intro back hsound hdef t
    obtain ⟨u, hu⟩ := Option.isSome_iff_exists.mp (hdef t)
    have : u = t := hinj (hsound _ _ hu)
    rw [hu, this]

/-! ## The declared set -/

/-- C3: the header declares exactly three tokens, Local, Session and
Synchronized: the declaration list has three entries without repetition, it
lists every token, the three declared identifiers are the ones of the header and
differ from one another, and there are three tokens in all. -/
theorem declared_tokens_exactly_three :
    declaredTokens.length = 3
    ∧ declaredTokens.Nodup
    ∧ (∀ t : Token, t ∈ declaredTokens)
    ∧ (∀ t : Token, t = Token.Local ∨ t = Token.Session ∨ t = Token.Synchronized)
    ∧ Fintype.card Token = 3
    ∧ declaredTokens.map Token.identifier
        = ["WKWebExtensionDataTypeLocal", "WKWebExtensionDataTypeSession",
           "WKWebExtensionDataTypeSynchronized"]
    ∧ (declaredTokens.map Token.identifier).Nodup := by
  refine ⟨rfl, by decide, by decide, token_cases, rfl, rfl, by decide⟩

/-! ## The type -/

/-- C4, as stated, fails: the type is not closed.  `nil` and the string "cookies"
are values of `WKWebExtensionDataType` and neither is the value of a declared
token, so not every value of the type is one of the three tokens; and this is so
whatever three values the globals are initialised with. -/
theorem type_not_closed :
    (∀ t : Token, t.value ≠ (⟨none⟩ : WKWebExtensionDataType))
    ∧ (∀ t : Token, t.value ≠ (⟨some "cookies"⟩ : WKWebExtensionDataType))
    ∧ ¬ (∀ v : WKWebExtensionDataType,
          v = Token.Local.value ∨ v = Token.Session.value
            ∨ v = Token.Synchronized.value)
    ∧ (∀ val : Token → WKWebExtensionDataType,
        ¬ (∀ v : WKWebExtensionDataType,
            v = val Token.Local ∨ v = val Token.Session
              ∨ v = val Token.Synchronized)) := by
  refine ⟨by decide, by decide, ?_, ?_⟩
  · intro h
    have h0 := h ⟨none⟩
    revert h0
    decide
  · intro val h
    obtain ⟨v, hv⟩ := exists_value_outside val
    rcases h v with h1 | h1 | h1
    · exact hv _ h1.symm
    · exact hv _ h1.symm
    · exact hv _ h1.symm

/-- C4, amended: the set of declared tokens is closed (every token is Local,
Session or Synchronized) and each holds a non-null string, while the type itself
is exactly `NSString *`: every string pointer, `nil` included, is the raw value
of one and only one value of the type, and a value of the type is a declared
token precisely when its string is "local", "session" or "synchronized". -/
theorem tokens_closed_within_open_type :
    (∀ t : Token, t = Token.Local ∨ t = Token.Session ∨ t = Token.Synchronized)
    ∧ (∀ t : Token, t.value.rawValue ≠ none)
    ∧ Function.Bijective WKWebExtensionDataType.rawValue
    ∧ (∀ v : WKWebExtensionDataType,
        (∃ t : Token, t.value = v) ↔
          (v.rawValue = some "local" ∨ v.rawValue = some "session"
            ∨ v.rawValue = some "synchronized")) := by
  refine ⟨token_cases, by decide, ⟨rawValue_injective, fun p => ⟨⟨p⟩, rfl⟩⟩, ?_⟩
  intro v
  constructor
  · rintro ⟨t, rfl⟩
    cases t
    · exact Or.inl rfl
    · exact Or.inr (Or.inl rfl)
    · exact Or.inr (Or.inr rfl)
  · rintro (h | h | h)
    · exact ⟨Token.Local, rawValue_injective h.symm⟩
    · exact ⟨Token.Session, rawValue_injective h.symm⟩
    · exact ⟨Token.Synchronized, rawValue_injective h.symm⟩

/-! ## Immutability -/

/-- C6: each token is an immutable constant.  Whatever accesses a program has
made before (reads and attempted assignments, in any number and order), the
storage still holds what static initialisation put there, every assignment was
refused, and referencing a token `n` more times yields `n` copies of the token's
value, each equal to every other. -/
theorem tokens_immutable (before : List Access) (t : Token) (n : Nat) :
    (run staticInit before).1 = staticInit
    ∧ Outcome.stored ∉ (run staticInit before).2
    ∧ (run (run staticInit before).1 (List.replicate n (Access.read t))).2
        = List.replicate n (Outcome.value t.value)
    ∧ (∀ o ∈ (run (run staticInit before).1 (List.replicate n (Access.read t))).2,
        o = Outcome.value t.value) := by
  have hrun : (run (run staticInit before).1 (List.replicate n (Access.read t))).2
      = List.replicate n (Outcome.value t.value) := by
    rw [run_store, run_reads]
    rfl
  refine ⟨run_store _ _, ?_, hrun, ?_⟩
  · rw [run_outcomes]
    intro h
    obtain ⟨a, -, ha⟩ := List.mem_map.mp h
    cases a with
    | read u => cases ha
    | assign u v => cases u <;> cases ha
  · intro o ho
    rw [hrun] at ho
    exact List.eq_of_mem_replicate ho

end WKWebExtension
